import Mathlib

/-!
Shallow embedding of the core of the `data-pile` append-only record store
(files `src/database.rs`, `src/seqno.rs`, `src/seqno_iter.rs`, `src/appender.rs`,
`src/shared_mmap.rs`, `src/growable_mmap.rs`, `src/index_on_mmaps.rs`).

Machine integers (`usize`, `u64`) are modelled as `Nat`; wherever overflow or
byte-level encoding matters the `% 2^64` reductions and little-endian byte
lists are explicit.  Streams backed by memory maps are modelled as the list of
bytes a reader can address; fallible operations return `Option` or `Except`.
-/

namespace DataPile

/-- Little-endian encoding of the low `k` bytes of `n`.  Models Rust's
`u64::to_le_bytes` (with `k = 8`) applied to a `usize` value cast to `u64`:
the encoding only keeps `n % 256^k`, exactly as the machine cast does. -/
def toLEBytes : Nat → Nat → List Nat
  | 0, _ => []
  | k + 1, n => n % 256 :: toLEBytes k (n / 256)

/-- Little-endian decoding of a byte list, models `u64::from_le_bytes`. -/
def fromLEBytes : List Nat → Nat
  | [] => 0
  | b :: bs => b % 256 + 256 * fromLEBytes bs

@[simp] theorem toLEBytes_length (k n : Nat) : (toLEBytes k n).length = k := by
  induction k generalizing n with
  | zero => rfl
  | succ k ih => simp [toLEBytes, ih]

theorem fromLEBytes_toLEBytes (k n : Nat) :
    fromLEBytes (toLEBytes k n) = n % 256 ^ k := by
  induction k generalizing n with
  | zero => simp [toLEBytes, fromLEBytes, Nat.mod_one]
  | succ k ih =>
    show n % 256 % 256 + 256 * fromLEBytes (toLEBytes k (n / 256)) = _
    rw [Nat.mod_mod_of_dvd _ dvd_rfl, ih, pow_succ', Nat.mod_mul]

theorem fromLEBytes_toLEBytes_of_lt {n : Nat} (h : n < 2 ^ 64) :
    fromLEBytes (toLEBytes 8 n) = n := by
  rw [fromLEBytes_toLEBytes]
  exact Nat.mod_eq_of_lt (by norm_num at h ⊢; exact h)

/-- The sequence-number index, `SeqNoIndex` in `src/seqno.rs`.  Its `inner`
field is the newer `Appender` that wraps a `GrowableMmap`; that appender is
absent from `src/` (the `src/appender.rs` present there is the earlier
single-mmap variant), so following the spec the inner stream is modelled as
the list of bytes readers can address, with `valid_size` equal to its
length. -/
structure SeqNoIndex where
  data : List Nat
  deriving Repr, DecidableEq

namespace SeqNoIndex

/-- `SeqNoIndex::append` (`src/seqno.rs` lines 21-37): an empty batch returns
`None`; otherwise the base sequence number is `size / 8` before the write and
each `u64` record is appended as its 8 little-endian bytes. -/
def append (idx : SeqNoIndex) (records : List Nat) : SeqNoIndex × Option Nat :=
  if records.isEmpty then (idx, none)
  else
    ({ data := idx.data ++ (records.map (toLEBytes 8)).flatten },
      some (idx.data.length / 8))

/-- `SeqNoIndex::get_pointer_to_value` (`src/seqno.rs` lines 40-49): reads the
8 bytes at offset `seqno * 8` through the inner appender's `get_data`.
Modelled from the spec: the newer `Appender::get_data(offset, f)` is absent
from `src/`; per the spec it refuses the read unless the whole entry lies
below `valid_size`, i.e. the entry is returned iff `8 * (seqno + 1) ≤ size`. -/
def get_pointer_to_value (idx : SeqNoIndex) (seqno : Nat) : Option Nat :=
  let offset := seqno * 8
  if offset + 8 ≤ idx.data.length then
    some (fromLEBytes ((idx.data.drop offset).take 8))
  else none

/-- Modelled from the spec: `SeqNoIndex::size` is called by
`Database::len` and `Database::new` but is not in the `src/seqno.rs` variant
given; per spec section 4.6 it returns the entry count, `valid_size / 8`. -/
def size (idx : SeqNoIndex) : Nat := idx.data.length / 8

end SeqNoIndex

/-- Modelled from the spec: the `FlatFile` variant used by `src/database.rs`
(with `memory_size`, `append(&[&[u8]])` and `get_record_at_offset(offset,
length)`) is absent from `src/` — the `src/flatfile.rs` given is an earlier
key-value variant with a different interface.  Per spec section 4.5 the flat
file is the plain concatenation of record payloads appended through its
appender, with `memory_size` the published `valid_size`. -/
structure FlatFile where
  data : List Nat
  deriving Repr, DecidableEq

namespace FlatFile

def memory_size (f : FlatFile) : Nat := f.data.length

def len (f : FlatFile) : Nat := f.data.length

/-- Modelled from the spec: `FlatFile::append` "computes total size
(rejecting zero-length records as unsupported) and writes each record
consecutively into the mutable slice provided by Appender".  The rejection of
a zero-length record is a refusal of the whole call (`none`); a successful
call concatenates the records onto the stream. -/
def append (f : FlatFile) (records : List (List Nat)) : Option FlatFile :=
  if records.any (fun r => r.isEmpty) then none
  else some { data := f.data ++ records.flatten }

/-- Modelled from the spec: `FlatFile::get_at(offset, length)` returns a view
of exactly `length` bytes starting at `offset`, failing if the stream is
shorter. -/
def get_record_at_offset (f : FlatFile) (offset length : Nat) :
    Option (List Nat) :=
  if offset + length ≤ f.data.length then
    some ((f.data.drop offset).take length)
  else none

end FlatFile

/-- The error taxonomy of `src/error.rs`, extended with the two variants
(`MmapTooSmall`, `Write`) that the earlier `src/appender.rs` and
`src/flatfile.rs` in the tree still use.  The `io::Error` and path payloads
carry no semantics relevant to the claims and are dropped. -/
inductive Error where
  | fileOpen
  | pathNotFound
  | pathNotDir
  | extend
  | metadata
  | mmap
  | mmapWrite
  | flush
  | protect
  | dataFileDamaged
  | seqNoIndexDamaged
  | storageLock
  | readHeader
  | updateHeader
  | mmapTooSmall
  | write
  deriving Repr, DecidableEq

/-- The database facade, `Database` in `src/database.rs`.  The write mutex
only serializes writers and has no sequential semantics, so it is not part of
the state. -/
structure Database where
  flatfile : FlatFile
  seqno_index : SeqNoIndex
  deriving Repr, DecidableEq

namespace Database

/-- The offset-computation loop of `Database::append_get_seqno`
(`src/database.rs` lines 101-107): starting from `initial_size`, push the
running offset for every record and advance it by the record's length. -/
def seqnoIndexUpdate (offset : Nat) : List (List Nat) → List Nat
  | [] => []
  | r :: rs => offset :: seqnoIndexUpdate (offset + r.length) rs

/-- `Database::append_get_seqno` (`src/database.rs` lines 92-113): an empty
batch is a no-op returning `None`; otherwise per-record offsets are computed
from `flatfile.memory_size()`, appended to the seqno index, and then the
payloads are appended to the flat file.  A refusal by `FlatFile::append`
(a batch holding a zero-length record) aborts the call (`none`). -/
def append_get_seqno (db : Database) (records : List (List Nat)) :
    Option (Database × Option Nat) :=
  if records.isEmpty then some (db, none)
  else
    let initial_size := db.flatfile.memory_size
    let upd := seqnoIndexUpdate initial_size records
    let r := db.seqno_index.append upd
    match db.flatfile.append records with
    | none => none
    | some ff => some ({ flatfile := ff, seqno_index := r.1 }, r.2)

/-- `Database::get_by_seqno` (`src/database.rs` lines 121-130). -/
def get_by_seqno (db : Database) (seqno : Nat) : Option (List Nat) :=
  match db.seqno_index.get_pointer_to_value seqno with
  | none => none
  | some offset =>
    let next_offset :=
      (db.seqno_index.get_pointer_to_value (seqno + 1)).getD
        db.flatfile.memory_size
    let length := next_offset - offset
    db.flatfile.get_record_at_offset offset length

/-- `Database::len` (`src/database.rs` lines 146-148). -/
def len (db : Database) : Nat := db.seqno_index.size

/-- `Database::new` (`src/database.rs` lines 57-82): recovery validation over
the two stream contents.  The two appender-backed streams are taken as
already opened without I/O error (the claim's hypothesis), so only the
`SeqNoIndexDamaged` check remains: if the index is non-empty, its last entry
must be readable and strictly below the flat stream's size. -/
def newDb (flatfileData seqnoIndexData : List Nat) : Except Error Database :=
  let flatfile : FlatFile := ⟨flatfileData⟩
  let seqno_index : SeqNoIndex := ⟨seqnoIndexData⟩
  let seqno_size := seqno_index.size
  if decide (seqno_size > 0) &&
      ((seqno_index.get_pointer_to_value (seqno_size - 1)).map
        (fun pos => decide (pos ≥ flatfile.memory_size))).getD true then
    .error .seqNoIndexDamaged
  else
    .ok { flatfile := flatfile, seqno_index := seqno_index }

end Database

/-! Helper lemmas about prefix sums of record lengths and about slicing of
concatenated byte lists. -/

/-- Sum of the lengths of the first `i` records: the byte offset of record
`i` relative to the batch start. -/
def partSum (rs : List (List Nat)) (i : Nat) : Nat :=
  ((rs.take i).map List.length).sum

@[simp] theorem partSum_zero (rs : List (List Nat)) : partSum rs 0 = 0 := rfl

@[simp] theorem partSum_nil (i : Nat) : partSum [] i = 0 := by
  simp [partSum]

theorem partSum_cons (r : List Nat) (rs : List (List Nat)) (i : Nat) :
    partSum (r :: rs) (i + 1) = r.length + partSum rs i := by
  simp [partSum, List.take_succ_cons]

theorem partSum_succ (rs : List (List Nat)) (i : Nat) (hi : i < rs.length) :
    partSum rs (i + 1) = partSum rs i + rs[i].length := by
  induction rs generalizing i with
  | nil => simp at hi
  | cons r rs ih =>
    cases i with
    | zero => simp [partSum_cons, partSum]
    | succ i =>
      have hi' : i < rs.length := by simpa using hi
      simp [partSum_cons, ih i hi', Nat.add_assoc]

theorem partSum_le_sum (rs : List (List Nat)) (i : Nat) :
    partSum rs i ≤ (rs.map List.length).sum := by
  conv_rhs => rw [← List.take_append_drop i rs]
  rw [List.map_append, List.sum_append]
  exact Nat.le_add_right _ _

theorem partSum_length (rs : List (List Nat)) :
    partSum rs rs.length = (rs.map List.length).sum := by
  simp [partSum]

theorem seqnoIndexUpdate_length (off : Nat) (rs : List (List Nat)) :
    (Database.seqnoIndexUpdate off rs).length = rs.length := by
  induction rs generalizing off with
  | nil => rfl
  | cons r rs ih => simp [Database.seqnoIndexUpdate, ih]

theorem seqnoIndexUpdate_getElem (off : Nat) (rs : List (List Nat)) (i : Nat)
    (hi : i < rs.length)
    (hiu : i < (Database.seqnoIndexUpdate off rs).length) :
    (Database.seqnoIndexUpdate off rs)[i] = off + partSum rs i := by
  induction rs generalizing off i with
  | nil => simp at hi
  | cons r rs ih =>
    cases i with
    | zero => simp [Database.seqnoIndexUpdate]
    | succ i =>
      have hi2 : i < rs.length := by simpa using hi
      have hiu2 : i < (Database.seqnoIndexUpdate (off + r.length) rs).length := by
        rw [seqnoIndexUpdate_length]
        exact hi2
      simp [Database.seqnoIndexUpdate, ih _ i hi2 hiu2, partSum_cons,
        Nat.add_assoc]

theorem encode_length (xs : List Nat) :
    ((xs.map (toLEBytes 8)).flatten).length = 8 * xs.length := by
  induction xs with
  | nil => rfl
  | cons x xs ih => simp [ih, Nat.mul_succ, Nat.add_comm]

theorem encode_drop_take (xs : List Nat) (i : Nat) (hi : i < xs.length) :
    (((xs.map (toLEBytes 8)).flatten.drop (8 * i)).take 8) =
      toLEBytes 8 xs[i] := by
  induction xs generalizing i with
  | nil => simp at hi
  | cons x xs ih =>
    cases i with
    | zero =>
      simp only [List.map_cons, List.flatten_cons, Nat.mul_zero, List.drop_zero]
      exact List.take_left' (toLEBytes_length 8 x)
    | succ i =>
      have hi' : i < xs.length := by simpa using hi
      have hsplit : 8 * (i + 1) = 8 + 8 * i := by ring
      simp only [List.map_cons, List.flatten_cons, hsplit, ← List.drop_drop]
      rw [List.drop_left' (toLEBytes_length 8 x)]
      simpa using ih i hi'

theorem drop_append_plus {α : Type} (l₁ l₂ : List α) (n : Nat) :
    (l₁ ++ l₂).drop (l₁.length + n) = l₂.drop n := by
  rw [← List.drop_drop, List.drop_left]

theorem flatten_drop_take (rs : List (List Nat)) (i : Nat) (hi : i < rs.length) :
    ((rs.flatten.drop (partSum rs i)).take rs[i].length) = rs[i] := by
  induction rs generalizing i with
  | nil => simp at hi
  | cons r rs ih =>
    cases i with
    | zero =>
      simp only [partSum_zero, List.flatten_cons, List.drop_zero]
      exact List.take_left' rfl
    | succ i =>
      have hi' : i < rs.length := by simpa using hi
      rw [partSum_cons, List.flatten_cons, ← List.drop_drop,
        List.drop_left' rfl]
      simpa using ih i hi'

/-- Reading entry `c + i` out of a seqno stream equal to `S` (of length
`8 * c`) followed by the encoding of the offsets `xs` yields the encoded
offset `xs[i]`. -/
theorem get_pointer_appended (S : List Nat) (xs : List Nat) (c i : Nat)
    (hS : S.length = 8 * c) (hi : i < xs.length) :
    SeqNoIndex.get_pointer_to_value ⟨S ++ (xs.map (toLEBytes 8)).flatten⟩
        (c + i) =
      some (fromLEBytes (toLEBytes 8 xs[i])) := by
  unfold SeqNoIndex.get_pointer_to_value
  have hlen : (S ++ (xs.map (toLEBytes 8)).flatten).length =
      8 * c + 8 * xs.length := by
    rw [List.length_append, hS, encode_length]
  have hcond : (c + i) * 8 + 8 ≤ 8 * c + 8 * xs.length := by
    have : i + 1 ≤ xs.length := hi
    nlinarith
  simp only [hlen, hcond, if_pos]
  have hdrop : ((S ++ (xs.map (toLEBytes 8)).flatten).drop ((c + i) * 8)) =
      ((xs.map (toLEBytes 8)).flatten.drop (8 * i)) := by
    have : (c + i) * 8 = S.length + 8 * i := by rw [hS]; ring
    rw [this, ← List.drop_drop, List.drop_left]
  rw [hdrop, encode_drop_take xs i hi]

/-- Reading an entry past the appended offsets fails the bounds check. -/
theorem get_pointer_appended_none (S : List Nat) (xs : List Nat) (c i : Nat)
    (hS : S.length = 8 * c) (hi : xs.length ≤ i) :
    SeqNoIndex.get_pointer_to_value ⟨S ++ (xs.map (toLEBytes 8)).flatten⟩
        (c + i) = none := by
  unfold SeqNoIndex.get_pointer_to_value
  have hlen : (S ++ (xs.map (toLEBytes 8)).flatten).length =
      8 * c + 8 * xs.length := by
    rw [List.length_append, hS, encode_length]
  have hcond : ¬ ((c + i) * 8 + 8 ≤ 8 * c + 8 * xs.length) := by
    intro h
    nlinarith
  simp only [hlen, hcond, if_neg, not_false_iff]

/-- Evaluation of a successful `append_get_seqno`: for a non-empty batch of
non-empty records the seqno stream gains the encoded offsets, the flat stream
gains the concatenated payloads, and the returned base is `size / 8` of the
prior seqno stream. -/
theorem append_get_seqno_eq (db : Database) (records : List (List Nat))
    (hm : records ≠ []) (hne : ∀ r ∈ records, r ≠ []) :
    db.append_get_seqno records =
      some ({ flatfile := ⟨db.flatfile.data ++ records.flatten⟩,
              seqno_index := ⟨db.seqno_index.data ++
                ((Database.seqnoIndexUpdate db.flatfile.data.length
                  records).map (toLEBytes 8)).flatten⟩ },
            some (db.seqno_index.data.length / 8)) := by
  have h1 : records.isEmpty = false := by
    cases records with
    | nil => exact absurd rfl hm
    | cons r rs => rfl
  have h2 : records.any (fun r => r.isEmpty) = false := by
    rw [List.any_eq_false]
    intro r hr
    have := hne r hr
    cases r with
    | nil => exact absurd rfl this
    | cons b bs => simp
  have h3 : (Database.seqnoIndexUpdate db.flatfile.data.length
      records).isEmpty = false := by
    have hl := seqnoIndexUpdate_length db.flatfile.data.length records
    cases hupd : Database.seqnoIndexUpdate db.flatfile.data.length records with
    | nil =>
      rw [hupd] at hl
      cases records with
      | nil => exact absurd rfl hm
      | cons r rs => simp at hl
    | cons x xs => rfl
  simp only [Database.append_get_seqno, h1, Bool.false_eq_true, if_false,
    FlatFile.memory_size, SeqNoIndex.append, h3, FlatFile.append, h2]

/-- C1: for every successful append of non-empty byte records returning base
sequence number `b`, reading back `get_by_seqno (b + i)` returns exactly the
`i`-th appended record, for every `i` below the batch size.  The hypotheses
`hal` (the seqno stream holds whole 8-byte entries) and `hfit` (the offsets
fit in a `u64`, automatic on a 64-bit machine where they are `usize` values)
describe every state the store actually reaches. -/
theorem append_then_get_roundtrip (db : Database) (records : List (List Nat))
    (hal : 8 ∣ db.seqno_index.data.length)
    (hne : ∀ r ∈ records, r ≠ [])
    (hm : records ≠ [])
    (hfit : db.flatfile.data.length + (records.map List.length).sum < 2 ^ 64)
    (i : Nat) (hi : i < records.length) :
    ∃ db' b, db.append_get_seqno records = some (db', some b) ∧
      db'.get_by_seqno (b + i) = some records[i] := by
  obtain ⟨c, hc⟩ := hal
  refine ⟨_, _, append_get_seqno_eq db records hm hne, ?_⟩
  have hb : db.seqno_index.data.length / 8 = c := by
    rw [hc]; exact Nat.mul_div_cancel_left c (by norm_num)
  rw [hb]
  set F := db.flatfile.data with hF
  set S := db.seqno_index.data with hS
  set upd := Database.seqnoIndexUpdate F.length records with hupdDef
  have hupdLen : upd.length = records.length := seqnoIndexUpdate_length _ _
  have hiu : i < upd.length := by rw [hupdLen]; exact hi
  have hgetI : upd[i] = F.length + partSum records i :=
    seqnoIndexUpdate_getElem F.length records i hi hiu
  have hofsI_lt : F.length + partSum records i < 2 ^ 64 :=
    lt_of_le_of_lt (Nat.add_le_add_left (partSum_le_sum records i) _) hfit
  have hptrI : SeqNoIndex.get_pointer_to_value
      ⟨S ++ (upd.map (toLEBytes 8)).flatten⟩ (c + i) =
      some (F.length + partSum records i) := by
    rw [get_pointer_appended S upd c i hc hiu, hgetI,
      fromLEBytes_toLEBytes_of_lt hofsI_lt]
  have hflatlen : (F ++ records.flatten).length =
      F.length + (records.map List.length).sum := by
    rw [List.length_append, List.length_flatten]
  have hnext : (SeqNoIndex.get_pointer_to_value
      ⟨S ++ (upd.map (toLEBytes 8)).flatten⟩ (c + i + 1)).getD
        (F ++ records.flatten).length =
      F.length + partSum records (i + 1) := by
    rcases Nat.lt_or_ge (i + 1) records.length with hlt | hge
    · have hiu' : i + 1 < upd.length := by rw [hupdLen]; exact hlt
      have hget' : upd[i + 1] = F.length + partSum records (i + 1) :=
        seqnoIndexUpdate_getElem F.length records (i + 1) hlt hiu'
      have hlt64 : F.length + partSum records (i + 1) < 2 ^ 64 :=
        lt_of_le_of_lt (Nat.add_le_add_left (partSum_le_sum records (i + 1)) _)
          hfit
      have h := get_pointer_appended S upd c (i + 1) hc hiu'
      rw [Nat.add_assoc]
      rw [h, hget', fromLEBytes_toLEBytes_of_lt hlt64, Option.getD_some]
    · have hge' : upd.length ≤ i + 1 := by rw [hupdLen]; exact hge
      have h := get_pointer_appended_none S upd c (i + 1) hc hge'
      rw [Nat.add_assoc]
      rw [h, Option.getD_none, hflatlen]
      have hieq : i + 1 = records.length := Nat.le_antisymm hi hge
      rw [hieq, partSum_length]
  show Database.get_by_seqno _ (c + i) = some records[i]
  unfold Database.get_by_seqno
  simp only [hptrI, FlatFile.memory_size]
  rw [hnext]
  have hsucc : partSum records (i + 1) = partSum records i + records[i].length :=
    partSum_succ records i hi
  have hlength : F.length + partSum records (i + 1) -
      (F.length + partSum records i) = records[i].length := by
    omega
  rw [hlength]
  unfold FlatFile.get_record_at_offset
  have hbound : F.length + partSum records i + records[i].length ≤
      (F ++ records.flatten).length := by
    rw [hflatlen]
    have := partSum_le_sum records (i + 1)
    omega
  rw [if_pos hbound, drop_append_plus, flatten_drop_take records i hi]

/-- Witness for the round-trip theorem at a concrete input: append records
`[1]` and `[2, 3]` to the empty store and read record 1 back. -/
theorem append_then_get_roundtrip_witness :
    ∃ db' b,
      Database.append_get_seqno ⟨⟨[]⟩, ⟨[]⟩⟩ [[1], [2, 3]] =
        some (db', some b) ∧
      db'.get_by_seqno (b + 1) = some [2, 3] :=
  append_then_get_roundtrip ⟨⟨[]⟩, ⟨[]⟩⟩ [[1], [2, 3]] ⟨0, rfl⟩
    (by decide) (by decide) (by decide) 1 (by decide)

/-- Database states reachable from the empty store (`Database::memory()`)
by successful `append_get_seqno` calls whose records are all non-empty;
`rs` collects every record appended, in order.  The bound on the new flat
size restates that offsets are `usize` values on the 64-bit machines the
code targets. -/
inductive Reachable : Database → List (List Nat) → Prop
  | init : Reachable ⟨⟨[]⟩, ⟨[]⟩⟩ []
  | step {db : Database} {rs records : List (List Nat)} {db' : Database}
      {b : Option Nat} :
      Reachable db rs →
      (∀ r ∈ records, r ≠ []) →
      db.flatfile.data.length + (records.map List.length).sum < 2 ^ 64 →
      db.append_get_seqno records = some (db', b) →
      Reachable db' (rs ++ records)

theorem seqnoIndexUpdate_append (off : Nat) (xs ys : List (List Nat)) :
    Database.seqnoIndexUpdate off (xs ++ ys) =
      Database.seqnoIndexUpdate off xs ++
        Database.seqnoIndexUpdate (off + (xs.map List.length).sum) ys := by
  induction xs generalizing off with
  | nil => simp [Database.seqnoIndexUpdate]
  | cons x xs ih =>
    simp only [List.cons_append, Database.seqnoIndexUpdate, List.append_eq, ih,
      List.map_cons, List.sum_cons, Nat.add_assoc]

/-- Explicit contents of every reachable state: the flat stream is the
concatenation of all records, the seqno stream is the encoding of their
offsets, all appended records are non-empty, and (unless nothing was ever
appended) the total size fits a `u64`. -/
theorem reachable_char (db : Database) (rs : List (List Nat))
    (h : Reachable db rs) :
    db.flatfile.data = rs.flatten ∧
    db.seqno_index.data =
      ((Database.seqnoIndexUpdate 0 rs).map (toLEBytes 8)).flatten ∧
    (∀ r ∈ rs, r ≠ []) ∧
    (rs = [] ∨ (rs.map List.length).sum < 2 ^ 64) := by
  induction h with
  | init =>
    refine ⟨rfl, rfl, ?_, Or.inl rfl⟩
    intro r hr
    cases hr
  | step hreach hne hfit happ ih =>
    rename_i db rs records db' b
    obtain ⟨hflat, hseq, hallne, hbound⟩ := ih
    cases hrecs : records with
    | nil =>
      subst hrecs
      rw [Database.append_get_seqno] at happ
      simp only [List.isEmpty_nil, if_true] at happ
      have h1 := Option.some.inj happ
      have hdb : db = db' := congrArg Prod.fst h1
      subst hdb
      rw [List.append_nil]
      exact ⟨hflat, hseq, hallne, hbound⟩
    | cons r0 rtl =>
      subst hrecs
      have hmne : (r0 :: rtl) ≠ ([] : List (List Nat)) := by simp
      rw [append_get_seqno_eq db _ hmne hne] at happ
      have h1 := Option.some.inj happ
      have hdb := congrArg Prod.fst h1
      simp only at hdb
      subst hdb
      refine ⟨?_, ?_, ?_, ?_⟩
      · show db.flatfile.data ++ (r0 :: rtl).flatten = (rs ++ r0 :: rtl).flatten
        rw [hflat, List.flatten_append]
      · show db.seqno_index.data ++
            ((Database.seqnoIndexUpdate db.flatfile.data.length
              (r0 :: rtl)).map (toLEBytes 8)).flatten =
          ((Database.seqnoIndexUpdate 0 (rs ++ r0 :: rtl)).map
            (toLEBytes 8)).flatten
        rw [seqnoIndexUpdate_append, List.map_append, List.flatten_append,
          hseq, Nat.zero_add, hflat, List.length_flatten]
      · intro r hr
        rcases List.mem_append.mp hr with h1 | h2
        · exact hallne r h1
        · exact hne r h2
      · right
        rw [List.map_append, List.sum_append]
        rw [hflat, List.length_flatten] at hfit
        exact hfit

/-- Entry lookup in a reachable state: entry `k` is present iff `k` is below
the record count, and then equals the byte offset of record `k`. -/
theorem reachable_get_pointer (db : Database) (rs : List (List Nat))
    (h : Reachable db rs) (k : Nat) :
    db.seqno_index.get_pointer_to_value k =
      if k < rs.length then some (partSum rs k) else none := by
  obtain ⟨hflat, hseq, hallne, hbound⟩ := reachable_char db rs h
  have hseq' : db.seqno_index = ⟨((Database.seqnoIndexUpdate 0 rs).map
      (toLEBytes 8)).flatten⟩ := by
    cases hidx : db.seqno_index with
    | mk d => rw [hidx] at hseq; exact congrArg SeqNoIndex.mk hseq
  rw [hseq']
  set upd := Database.seqnoIndexUpdate 0 rs with hupdDef
  have hupdLen : upd.length = rs.length := seqnoIndexUpdate_length _ _
  rcases Nat.lt_or_ge k rs.length with hk | hk
  · have hku : k < upd.length := by rw [hupdLen]; exact hk
    have h0 := get_pointer_appended [] upd 0 k (by simp) hku
    simp only [List.nil_append, Nat.zero_add] at h0
    have hrsne : rs ≠ [] := by
      intro hnil
      rw [hnil] at hk
      simp at hk
    have hsum_lt : (rs.map List.length).sum < 2 ^ 64 := by
      rcases hbound with h1 | h1
      · exact absurd h1 hrsne
      · exact h1
    have hgetk : upd[k] = partSum rs k := by
      rw [seqnoIndexUpdate_getElem 0 rs k hk hku, Nat.zero_add]
    have hlt64 : partSum rs k < 2 ^ 64 :=
      lt_of_le_of_lt (partSum_le_sum rs k) hsum_lt
    rw [h0, hgetk, fromLEBytes_toLEBytes_of_lt hlt64, if_pos hk]
  · have hku : upd.length ≤ k := by rw [hupdLen]; exact hk
    have h0 := get_pointer_appended_none [] upd 0 k (by simp) hku
    simp only [List.nil_append, Nat.zero_add] at h0
    rw [h0, if_neg (Nat.not_lt.mpr hk)]

/-- C2: in every reachable state the seqno entries are strictly increasing,
every present entry is a valid offset into the flat stream (strictly below
its logical size), and the entry count equals the count of records ever
appended. -/
theorem reachable_seqno_invariant (db : Database) (rs : List (List Nat))
    (h : Reachable db rs) :
    (∀ k a b, db.seqno_index.get_pointer_to_value k = some a →
      db.seqno_index.get_pointer_to_value (k + 1) = some b → a < b) ∧
    (∀ k v, db.seqno_index.get_pointer_to_value k = some v →
      v < db.flatfile.memory_size) ∧
    db.seqno_index.size = rs.length := by
  obtain ⟨hflat, hseq, hallne, hbound⟩ := reachable_char db rs h
  have hget := reachable_get_pointer db rs h
  have hstep : ∀ k, k < rs.length → partSum rs k < partSum rs (k + 1) := by
    intro k hk
    rw [partSum_succ rs k hk]
    have hne : rs[k] ≠ [] := hallne _ (List.getElem_mem hk)
    have hpos : 0 < rs[k].length := List.length_pos.mpr hne
    omega
  refine ⟨?_, ?_, ?_⟩
  · intro k a b ha hb
    rw [hget k] at ha
    rw [hget (k + 1)] at hb
    by_cases hk1 : k + 1 < rs.length
    · have hk : k < rs.length := Nat.lt_of_succ_lt hk1
      rw [if_pos hk] at ha
      rw [if_pos hk1] at hb
      have ha' := Option.some.inj ha
      have hb' := Option.some.inj hb
      rw [← ha', ← hb'] at *
      exact ha' ▸ hb' ▸ hstep k hk
    · rw [if_neg hk1] at hb
      cases hb
  · intro k v hv
    rw [hget k] at hv
    by_cases hk : k < rs.length
    · rw [if_pos hk] at hv
      have hv' := Option.some.inj hv
      have h1 : partSum rs k < partSum rs (k + 1) := hstep k hk
      have h2 : partSum rs (k + 1) ≤ (rs.map List.length).sum :=
        partSum_le_sum rs (k + 1)
      have : db.flatfile.memory_size = (rs.map List.length).sum := by
        rw [FlatFile.memory_size, hflat, List.length_flatten]
      omega
    · rw [if_neg hk] at hv
      cases hv
  · rw [SeqNoIndex.size, hseq, encode_length, seqnoIndexUpdate_length]
    exact Nat.mul_div_cancel_left _ (by norm_num)

/-- The state holding records `[1]` and `[2, 3]`, reachable from the empty
store by one append. -/
def exampleDb : Database :=
  ⟨⟨[1, 2, 3]⟩, ⟨[0, 0, 0, 0, 0, 0, 0, 0, 1, 0, 0, 0, 0, 0, 0, 0]⟩⟩

theorem exampleDb_reachable : Reachable exampleDb [[1], [2, 3]] :=
  @Reachable.step ⟨⟨[]⟩, ⟨[]⟩⟩ [] [[1], [2, 3]] exampleDb (some 0)
    Reachable.init (by decide) (by decide) (by decide)

/-- Witness for the reachable-state invariant at the concrete reachable
state `exampleDb`. -/
theorem reachable_seqno_invariant_witness :
    (∀ k a b, exampleDb.seqno_index.get_pointer_to_value k = some a →
      exampleDb.seqno_index.get_pointer_to_value (k + 1) = some b → a < b) ∧
    (∀ k v, exampleDb.seqno_index.get_pointer_to_value k = some v →
      v < exampleDb.flatfile.memory_size) ∧
    exampleDb.seqno_index.size = 2 :=
  reachable_seqno_invariant exampleDb [[1], [2, 3]] exampleDb_reachable

/-- The iterator, `SeqNoIter` in `src/seqno_iter.rs`: clones of the two
streams plus the next sequence number. -/
structure SeqNoIter where
  data : FlatFile
  index : SeqNoIndex
  seqno : Nat
  deriving Repr, DecidableEq

/-- `SeqNoIter::next_impl` (`src/seqno_iter.rs` lines 17-28): look up the
offset of the current seqno (absence ends the iteration), compute the record
length from the next offset (or the flat stream's length for the last
record), fetch the bytes and advance. -/
def SeqNoIter.next_impl (it : SeqNoIter) : Option (List Nat × SeqNoIter) :=
  match it.index.get_pointer_to_value it.seqno with
  | none => none
  | some offset =>
    let next_offset :=
      (it.index.get_pointer_to_value (it.seqno + 1)).getD it.data.len
    let length := next_offset - offset
    match it.data.get_record_at_offset offset length with
    | none => none
    | some item => some (item, { it with seqno := it.seqno + 1 })

/-- `Database::iter_from_seqno` (`src/database.rs` lines 134-140):
unconditionally wraps a fresh iterator in `Some`. -/
def Database.iter_from_seqno (db : Database) (seqno : Nat) : Option SeqNoIter :=
  some { data := db.flatfile, index := db.seqno_index, seqno := seqno }

/-- C4: opening the database fails with `SeqNoIndexDamaged` exactly when the
seqno entry count is positive and the last entry is unreadable or not
strictly below the flat stream's size; every other outcome is a successful
open (given the underlying streams opened without I/O error, which is how
`newDb` takes its inputs). -/
theorem newDb_validation (flatfileData seqnoIndexData : List Nat) :
    (Database.newDb flatfileData seqnoIndexData =
        .error .seqNoIndexDamaged ↔
      (0 < (SeqNoIndex.mk seqnoIndexData).size ∧
        ∀ v, (SeqNoIndex.mk seqnoIndexData).get_pointer_to_value
            ((SeqNoIndex.mk seqnoIndexData).size - 1) = some v →
          flatfileData.length ≤ v)) ∧
    (Database.newDb flatfileData seqnoIndexData =
        .error .seqNoIndexDamaged ∨
      Database.newDb flatfileData seqnoIndexData =
        .ok ⟨⟨flatfileData⟩, ⟨seqnoIndexData⟩⟩) := by
  rcases hopt : (SeqNoIndex.mk seqnoIndexData).get_pointer_to_value
      ((SeqNoIndex.mk seqnoIndexData).size - 1) with _ | v
  · by_cases hpos : 0 < (SeqNoIndex.mk seqnoIndexData).size
    · have hdam : Database.newDb flatfileData seqnoIndexData =
          .error .seqNoIndexDamaged := by
        simp [Database.newDb, hopt, hpos]
      refine ⟨⟨fun _ => ⟨hpos, fun v hv => ?_⟩, fun _ => hdam⟩, Or.inl hdam⟩
      exact nomatch hv
    · have hok : Database.newDb flatfileData seqnoIndexData =
          .ok ⟨⟨flatfileData⟩, ⟨seqnoIndexData⟩⟩ := by
        simp [Database.newDb, hopt, hpos]
      refine ⟨⟨fun h => ?_, fun hc => absurd hc.1 hpos⟩, Or.inr hok⟩
      rw [hok] at h
      cases h
  · by_cases hpos : 0 < (SeqNoIndex.mk seqnoIndexData).size
    · by_cases hge : flatfileData.length ≤ v
      · have hdam : Database.newDb flatfileData seqnoIndexData =
            .error .seqNoIndexDamaged := by
          simp [Database.newDb, hopt, hpos, FlatFile.memory_size, hge]
        refine ⟨⟨fun _ => ⟨hpos, fun w hw => ?_⟩, fun _ => hdam⟩, Or.inl hdam⟩
        have hwv : v = w := Option.some.inj hw
        rw [← hwv]
        exact hge
      · have hok : Database.newDb flatfileData seqnoIndexData =
            .ok ⟨⟨flatfileData⟩, ⟨seqnoIndexData⟩⟩ := by
          simp [Database.newDb, hopt, hpos, FlatFile.memory_size, hge]
        refine ⟨⟨fun h => ?_, fun hc => absurd (hc.2 v rfl) hge⟩, Or.inr hok⟩
        rw [hok] at h
        cases h
    · have hok : Database.newDb flatfileData seqnoIndexData =
          .ok ⟨⟨flatfileData⟩, ⟨seqnoIndexData⟩⟩ := by
        simp [Database.newDb, hpos]
      refine ⟨⟨fun h => ?_, fun hc => absurd hc.1 hpos⟩, Or.inr hok⟩
      rw [hok] at h
      cases h

/-- Witness for the recovery-validation theorem at concrete inputs: a flat
stream of one byte with a seqno stream holding the single entry 0 opens
successfully, while the single entry 5 is rejected as damaged. -/
theorem newDb_validation_witness :
    Database.newDb [7] [0, 0, 0, 0, 0, 0, 0, 0] =
        .ok ⟨⟨[7]⟩, ⟨[0, 0, 0, 0, 0, 0, 0, 0]⟩⟩ ∧
      Database.newDb [7] [5, 0, 0, 0, 0, 0, 0, 0] =
        .error .seqNoIndexDamaged := by
  constructor
  · rcases (newDb_validation [7] [0, 0, 0, 0, 0, 0, 0, 0]).2 with h | h
    · exfalso
      have hc := (newDb_validation [7] [0, 0, 0, 0, 0, 0, 0, 0]).1.mp h
      have h0 := hc.2 0 (by decide)
      simp at h0
    · exact h
  · refine ((newDb_validation [7] [5, 0, 0, 0, 0, 0, 0, 0]).1).mpr
      ⟨by decide, fun v hv => ?_⟩
    have h5 : (SeqNoIndex.mk [5, 0, 0, 0, 0, 0, 0, 0]).get_pointer_to_value
        ((SeqNoIndex.mk [5, 0, 0, 0, 0, 0, 0, 0]).size - 1) = some 5 := by
      decide
    have hv5 : (5 : Nat) = v := Option.some.inj (h5.symm.trans hv)
    show (1 : Nat) ≤ v
    omega

/-- C7: a batch containing a zero-length record is refused by the append
path (the flat file rejects it as unsupported) and nothing is stored. -/
theorem append_rejects_empty_record (db : Database)
    (records : List (List Nat)) (hmem : [] ∈ records) :
    db.append_get_seqno records = none := by
  have hne : records.isEmpty = false := by
    cases records with
    | nil => cases hmem
    | cons r rl => rfl
  have hany : records.any (fun r => r.isEmpty) = true :=
    List.any_eq_true.mpr ⟨[], hmem, rfl⟩
  simp only [Database.append_get_seqno, hne, Bool.false_eq_true, if_false,
    FlatFile.append, hany, if_true]

/-- Witness for the zero-length-record rejection at a concrete input. -/
theorem append_rejects_empty_record_witness :
    Database.append_get_seqno ⟨⟨[]⟩, ⟨[]⟩⟩ [[]] = none :=
  append_rejects_empty_record ⟨⟨[]⟩, ⟨[]⟩⟩ [[]] (by decide)

/-- Counterexample to C8 as stated: on the empty store `len() = 0`, and for
`k = 1 > len()` the claim demands that `iter_from_seqno` return none, but
the code unconditionally returns an iterator. -/
theorem iter_from_seqno_counterexample :
    Database.len ⟨⟨[]⟩, ⟨[]⟩⟩ = 0 ∧
      Database.iter_from_seqno ⟨⟨[]⟩, ⟨[]⟩⟩ 1 ≠ none := by
  exact ⟨rfl, by decide⟩

/-- C8 amended: `iter_from_seqno(k)` returns an iterator for every `k`
(never none), and whenever `k ≥ len()` — in particular at `k = len()` and
for every `k > len()` — that iterator immediately terminates. -/
theorem iter_from_seqno_behavior (db : Database) (k : Nat) :
    ∃ it, db.iter_from_seqno k = some it ∧
      (db.len ≤ k → it.next_impl = none) := by
  refine ⟨_, rfl, ?_⟩
  intro hk
  simp only [Database.len, SeqNoIndex.size] at hk
  unfold SeqNoIter.next_impl
  have hnone : db.seqno_index.get_pointer_to_value k = none := by
    unfold SeqNoIndex.get_pointer_to_value
    simp only
    rw [if_neg]
    omega
  rw [hnone]

/-- Witness for the amended iterator claim at `k = len()` on the empty
store. -/
theorem iter_from_seqno_behavior_witness :
    ∃ it, Database.iter_from_seqno ⟨⟨[]⟩, ⟨[]⟩⟩ 0 = some it ∧
      (Database.len ⟨⟨[]⟩, ⟨[]⟩⟩ ≤ 0 → it.next_impl = none) :=
  iter_from_seqno_behavior ⟨⟨[]⟩, ⟨[]⟩⟩ 0

/-! The earlier single-mmap `Appender` of `src/appender.rs`. -/

/-- `MaybeMmap` (`src/appender.rs` lines 28-31): either an initialized
mutable map or the not-yet-created map remembering the intended size
(Windows cannot map a zero-length file). -/
inductive MaybeMmap where
  | mmap (m : List Nat)
  | uninit (map_size : Nat)
  deriving Repr, DecidableEq

namespace MaybeMmap

/-- `MaybeMmap::len` (`src/appender.rs` lines 178-183). -/
def len : MaybeMmap → Nat
  | mmap m => m.length
  | uninit map_size => map_size

/-- `MaybeMmap::init` (`src/appender.rs` lines 151-162): map the file if not
yet mapped.  In `Appender::append` this runs right after `set_len` extended
the file, so a fresh mapping reads as the zero bytes the extension produced.
`ok = false` injects a mapping failure (`Error::Mmap`). -/
def init (mm : MaybeMmap) (ok : Bool) : MaybeMmap × Except Error Unit :=
  match mm with
  | mmap m => (mmap m, .ok ())
  | uninit map_size =>
    if ok then (mmap (List.replicate map_size 0), .ok ())
    else (uninit map_size, .error .mmap)

/-- `MaybeMmap::as_ref` (`src/appender.rs` lines 164-169). -/
def asRef : MaybeMmap → Option (List Nat)
  | mmap m => some m
  | uninit _ => none

end MaybeMmap

/-- Bytes written in place: replace `buf[pos .. pos + ws.length)` by `ws`
(the effect of a writer closure that fills its slice with `ws`). -/
def writeAt (buf : List Nat) (pos : Nat) (ws : List Nat) : List Nat :=
  buf.take pos ++ ws ++ buf.drop (pos + ws.length)

theorem writeAt_take (buf : List Nat) (pos : Nat) (ws : List Nat)
    (h : pos ≤ buf.length) :
    (writeAt buf pos ws).take pos = buf.take pos := by
  rw [writeAt, List.append_assoc]
  exact List.take_left' (by rw [List.length_take]; omega)

/-- The earlier `Appender` (`src/appender.rs` lines 13-22): one fixed-size
map over the whole backing file, and the atomic `actual_size` that publishes
the readable prefix to readers.  `fileLen` is the file's current length
(moved by `set_len`). -/
structure Appender where
  fileLen : Nat
  mmap : MaybeMmap
  actual_size : Nat
  deriving Repr, DecidableEq

namespace Appender

/-- `Appender::append` (`src/appender.rs` lines 79-116).  The writer closure
`f` is modelled by the bytes `ws` it leaves in the fresh slice
`[actual_size, new_file_size)` (`ws.length = size_inc` for a writer filling
the slice); `setLenOk`, `initOk`, `flushOk` inject the possible I/O failures
of `set_len`, mapping creation and `flush`.  The source's `?` operators
return from the whole function, so its `set_len` revert arm is dead code;
every failure path returns before the `actual_size.store` at line 113. -/
def append (st : Appender) (size_inc : Nat) (ws : List Nat)
    (setLenOk initOk flushOk : Bool) : Appender × Except Error Unit :=
  let actual_size := st.actual_size
  let new_file_size := actual_size + size_inc
  if st.mmap.len < new_file_size then (st, .error .mmapTooSmall)
  else if !setLenOk then (st, .error .write)
  else
    let st₁ : Appender := { st with fileLen := new_file_size }
    match st₁.mmap.init initOk with
    | (mm, .error e) => ({ st₁ with mmap := mm }, .error e)
    | (mm, .ok _) =>
      match mm with
      | .uninit s => ({ st₁ with mmap := .uninit s }, .error .mmap)
      | .mmap buf =>
        let wbuf := writeAt buf actual_size ws
        if !flushOk then ({ st₁ with mmap := .mmap wbuf }, .error .write)
        else
          ({ st₁ with
              mmap := .mmap wbuf
              actual_size := new_file_size }, .ok ())

/-- `Appender::get_data` (`src/appender.rs` lines 120-128): the reader sees
exactly the published prefix `mmap[0 .. actual_size)`; an uninitialized map
refuses the read. -/
def get_data (st : Appender) : Option (List Nat) :=
  match st.mmap.asRef with
  | none => none
  | some m => some (m.take st.actual_size)

/-- `Appender::size` (`src/appender.rs` lines 130-132). -/
def size (st : Appender) : Nat := st.actual_size

/-- The bytes a reader can actually observe through `get_data`: the
published prefix, empty when the map is uninitialized (every read then
returns `None`, exposing no byte). -/
def viewBytes (st : Appender) : List Nat := (st.get_data).getD []

end Appender

/-- C3: an `Appender::append` that fails (any of the map-too-small check,
`set_len`, mapping creation or `flush` failing, for any writer output)
leaves the published `actual_size` boundary unchanged and leaves every byte
observable through `get_data` unchanged: partially written bytes beyond the
boundary stay invisible to readers.  The hypothesis `hinv` is the invariant
`Appender::new` establishes: the map is only ever uninitialized while the
file (hence `actual_size`) is empty. -/
theorem append_failure_invisible (st : Appender) (size_inc : Nat)
    (ws : List Nat) (setLenOk initOk flushOk : Bool) (e : Error)
    (hinv : ∀ s, st.mmap = .uninit s → st.actual_size = 0)
    (hfail : (st.append size_inc ws setLenOk initOk flushOk).2 = .error e) :
    (st.append size_inc ws setLenOk initOk flushOk).1.actual_size =
        st.actual_size ∧
      (st.append size_inc ws setLenOk initOk flushOk).1.viewBytes =
        st.viewBytes := by
  by_cases h1 : st.mmap.len < st.actual_size + size_inc
  · simp [Appender.append, h1]
  · cases hslo : setLenOk with
    | false => simp [Appender.append, h1, hslo]
    | true =>
      cases hmm : st.mmap with
      | uninit s =>
        rw [hmm] at h1
        simp only [MaybeMmap.len] at h1
        cases hio : initOk with
        | false =>
          simp [Appender.append, hmm, h1, hslo, MaybeMmap.init, hio,
            Appender.viewBytes, Appender.get_data, MaybeMmap.asRef,
            MaybeMmap.len]
        | true =>
          cases hfo : flushOk with
          | false =>
            have hzero : st.actual_size = 0 := hinv s hmm
            rw [hzero, Nat.zero_add] at h1
            simp [Appender.append, hmm, h1, hslo, MaybeMmap.init, hio, hfo,
              Appender.viewBytes, Appender.get_data, MaybeMmap.asRef,
              MaybeMmap.len, hzero]
          | true =>
            exfalso
            simp [Appender.append, hmm, h1, hslo, MaybeMmap.init, hio, hfo,
              MaybeMmap.len] at hfail
      | mmap buf =>
        rw [hmm] at h1
        simp only [MaybeMmap.len] at h1
        cases hfo : flushOk with
        | false =>
          have hlen : st.actual_size ≤ buf.length := by omega
          simp [Appender.append, hmm, h1, hslo, MaybeMmap.init, hfo,
            Appender.viewBytes, Appender.get_data, MaybeMmap.asRef,
            MaybeMmap.len]
          rw [writeAt_take _ _ _ hlen]
        | true =>
          exfalso
          simp [Appender.append, hmm, h1, hslo, MaybeMmap.init, hfo,
            MaybeMmap.len] at hfail

/-- Witness for the failed-append theorem at a concrete input: a one-byte
map with one published byte refuses a two-byte append (map too small),
keeping boundary and view intact. -/
theorem append_failure_invisible_witness :
    ((Appender.mk 1 (.mmap [3]) 1).append 2 [7, 7] true true true).2 =
        .error .mmapTooSmall ∧
      ((Appender.mk 1 (.mmap [3]) 1).append 2 [7, 7] true true true).1.actual_size = 1 ∧
      ((Appender.mk 1 (.mmap [3]) 1).append 2 [7, 7] true true true).1.viewBytes = [3] := by
  refine ⟨rfl, ?_⟩
  have h := append_failure_invisible (Appender.mk 1 (.mmap [3]) 1) 2 [7, 7]
    true true true .mmapTooSmall (fun s hs => nomatch hs) rfl
  exact ⟨h.1, h.2⟩

/-! Memory orderings used on the published size atomic (`src/appender.rs`). -/

/-- The orderings of Rust's `std::sync::atomic::Ordering`. -/
inductive MemOrdering where
  | relaxed
  | acquire
  | release
  | acqRel
  | seqCst
  deriving Repr, DecidableEq

inductive AtomicOp where
  | load
  | store
  deriving Repr, DecidableEq

/-- One access to the `actual_size` atomic (the published size boundary) in
`src/appender.rs`: the operation, the source line, and the `Ordering`
argument written there. -/
structure AtomicAccess where
  op : AtomicOp
  line : Nat
  ordering : MemOrdering
  deriving Repr, DecidableEq

/-- Every access to `actual_size` in `src/appender.rs`: the load in `append`
(line 84), the store in `append` (line 113), and the loads in `get_data`
(line 125), `size` (line 131) and `snapshot` (line 139). -/
def actualSizeAccesses : List AtomicAccess :=
  [⟨.load, 84, .relaxed⟩, ⟨.store, 113, .relaxed⟩, ⟨.load, 125, .relaxed⟩,
    ⟨.load, 131, .relaxed⟩, ⟨.load, 139, .relaxed⟩]

/-- The orderings the claim requires: sequentially consistent, or
acquire-or-stronger for loads and release-or-stronger for stores — never
relaxed. -/
def publicationSafe (a : AtomicAccess) : Bool :=
  match a.op, a.ordering with
  | _, .seqCst => true
  | _, .acqRel => true
  | .load, .acquire => true
  | .store, .release => true
  | _, _ => false

/-- C9 (code bug): every access to the published size atomic in
`src/appender.rs` is performed with `Ordering::Relaxed`; not one of them
uses the sequentially-consistent or acquire/release ordering the claim
requires for the publication fence. -/
theorem valid_size_orderings_all_relaxed :
    actualSizeAccesses.all (fun a => a.ordering == .relaxed) = true ∧
      actualSizeAccesses.all (fun a => publicationSafe a) = false := by
  decide

/-! `SharedMmap` of `src/shared_mmap.rs`. -/

/-- Rust's `std::ops::Bound<usize>` as received through `RangeBounds`. -/
inductive RBound where
  | included (n : Nat)
  | excluded (n : Nat)
  | unbounded
  deriving Repr, DecidableEq

/-- Wrapping `usize` subtraction: release-mode semantics of the source's
`end - 1` and `end - start` (debug builds panic on underflow — a corner no
theorem below touches). -/
def usizeSub (a b : Nat) : Nat := (a % 2 ^ 64 + 2 ^ 64 - b % 2 ^ 64) % 2 ^ 64

/-- `SharedMmap` (`src/shared_mmap.rs` lines 9-13): shared ownership of one
map (`mmap`, the full byte list standing for the `Arc<MmapMut>`), a window
length `len`, and the window's start pointer kept as the offset `slicePtr`
from the map base (the source names this field `slice`; Lean cannot give a
structure a field and a method of the same name). -/
structure SharedMmap where
  mmap : List Nat
  len : Nat
  slicePtr : Nat
  deriving Repr, DecidableEq

namespace SharedMmap

/-- `SharedMmap::new` (`src/shared_mmap.rs` lines 16-24): a window over the
whole map. -/
def new (m : List Nat) : SharedMmap := ⟨m, m.length, 0⟩

/-- `SharedMmap::as_ref` (`src/shared_mmap.rs` lines 89-93): the bytes of
the window. -/
def asRef (m : SharedMmap) : List Nat :=
  (m.mmap.drop m.slicePtr).take m.len

/-- `SharedMmap::slice` (`src/shared_mmap.rs` lines 34-84), translated
bound arm by bound arm, guards exactly as written in the source. -/
def slice (m : SharedMmap) (startBound endBound : RBound) :
    Option SharedMmap :=
  let startv? : Option Nat :=
    match startBound with
    | .included start => if start ≥ m.len then some start else none
    | .excluded start => if start + 1 ≥ m.len then some (start + 1) else none
    | .unbounded => some 0
  match startv? with
  | none => none
  | some start =>
    let endv? : Option Nat :=
      match endBound with
      | .included e => if e ≥ m.len then some e else none
      | .excluded e => if usizeSub e 1 ≥ m.len then some (usizeSub e 1)
        else none
      | .unbounded => some (usizeSub m.len 1)
    match endv? with
    | none => none
    | some endv =>
      let len := usizeSub endv start
      if len = 0 then none
      else some { mmap := m.mmap, len := len, slicePtr := m.slicePtr + start }

end SharedMmap

/-- C6 (code bug): slicing the in-bounds non-empty range `[0, 1)` out of a
two-byte map returns `None` instead of the one-byte window the claim
requires, and the in-bounds empty range `[1, 1)` also returns `None`
instead of a zero-length view — the source's bounds guards accept only
out-of-range indices, and `len == 0` is rejected outright. -/
theorem slice_rejects_inbounds_range :
    (SharedMmap.new [10, 20]).slice (.included 0) (.excluded 1) = none ∧
      (SharedMmap.new [10, 20]).slice (.included 1) (.excluded 1) = none := by
  exact ⟨rfl, rfl⟩

/-! `GrowableMmap` of `src/growable_mmap.rs` with its index structures from
`src/index_on_mmaps.rs`. -/

/-- `SingleMmapIndex` (`src/index_on_mmaps.rs` lines 1-4): the cumulative
write bounds within one map, plus the map's global start address. -/
structure SingleMmapIndex where
  internal_bounds : List Nat
  start : Nat
  deriving Repr, DecidableEq

namespace SingleMmapIndex

/-- `SingleMmapIndex::new` (`src/index_on_mmaps.rs` lines 7-12). -/
def new (start : Nat) : SingleMmapIndex := ⟨[], start⟩

/-- `SingleMmapIndex::last_global_index` (lines 14-16). -/
def last_global_index (idx : SingleMmapIndex) : Nat :=
  idx.start + (idx.internal_bounds.getLast?).getD 0

/-- `SingleMmapIndex::current_mmap_size` (lines 18-20). -/
def current_mmap_size (idx : SingleMmapIndex) : Nat :=
  (idx.internal_bounds.getLast?).getD 0

/-- `SingleMmapIndex::append` (lines 22-31).  The source asserts
`start < end` on entry; at each call site reached by `grow_and_apply` with
`add > 0` the asserted inequality holds (the new end is the old end plus
`add`), so the assertion is not part of the model. -/
def append (idx : SingleMmapIndex) (e : Nat) : SingleMmapIndex :=
  let base := if idx.internal_bounds.isEmpty then [0]
    else idx.internal_bounds
  { idx with internal_bounds := base ++ [e] }

/-- `SingleMmapIndex::is_empty` (lines 33-35). -/
def is_empty (idx : SingleMmapIndex) : Bool :=
  idx.last_global_index == 0

end SingleMmapIndex

/-- `IndexOnMmaps` (`src/index_on_mmaps.rs` lines 71-73). -/
structure IndexOnMmaps where
  mmaps : List SingleMmapIndex
  deriving Repr, DecidableEq

namespace IndexOnMmaps

def new : IndexOnMmaps := ⟨[]⟩

/-- `IndexOnMmaps::add_mmap` (lines 87-99): empty indexes are ignored.  The
source asserts that the added index starts at the current end, which holds
at the one call site (`grow_and_apply` freezes the active map whose bounds
start there). -/
def add_mmap (io : IndexOnMmaps) (mi : SingleMmapIndex) : IndexOnMmaps :=
  if mi.is_empty then io else ⟨io.mmaps ++ [mi]⟩

/-- `IndexOnMmaps::memory_size` (lines 123-128). -/
def memory_size (io : IndexOnMmaps) : Nat :=
  ((io.mmaps.getLast?).map SingleMmapIndex.last_global_index).getD 0

end IndexOnMmaps

/-- `StorageHeader` (`src/growable_mmap.rs` lines 11-16): the 16-byte mapped
file prefix; the stored size is the first 8 bytes, little-endian. -/
structure StorageHeader where
  mmap : List Nat
  deriving Repr, DecidableEq

namespace StorageHeader

def HEADER_SIZE : Nat := 16

/-- `StorageHeader::load_storage_size` (lines 50-55). -/
def load_storage_size (h : StorageHeader) : Nat :=
  fromLEBytes (h.mmap.take 8)

/-- `StorageHeader::store_storage_size` (lines 57-62); its flush is taken as
succeeding (C3 covers failing flushes). -/
def store_storage_size (h : StorageHeader) (new_size : Nat) : StorageHeader :=
  ⟨toLEBytes 8 new_size ++ h.mmap.drop 8⟩

end StorageHeader

/-- `ActiveMmap` (`src/growable_mmap.rs` lines 69-73): capacity `len`, the
map's bytes, and the write bounds within it. -/
structure ActiveMmap where
  len : Nat
  mmap : List Nat
  bounds : SingleMmapIndex
  deriving Repr, DecidableEq

/-- `InactiveMmaps` (`src/growable_mmap.rs` lines 75-78).  Each frozen map
is kept as the byte window its `SharedMmap` exposes.  Modelled from the
spec: the frozen entry is built with the newer
`SharedMmap::new(..).slice(..current_mmap_end)`, absent from `src/`; per
spec section 4.1 that slice is the narrower window into the same map, here
the first `current_mmap_end` bytes. -/
structure InactiveMmaps where
  index : IndexOnMmaps
  maps : List (List Nat)
  deriving Repr, DecidableEq

/-- `Storage` (`src/growable_mmap.rs` lines 80-84). -/
structure Storage where
  header : StorageHeader
  inactive_mmaps : InactiveMmaps
  active_map : Option ActiveMmap
  deriving Repr, DecidableEq

/-- `GrowableMmap` (`src/growable_mmap.rs` lines 93-96); `isFile` records
whether a backing file exists (`file: Option<File>`).  The `RwLock` only
serializes access and has no sequential semantics. -/
structure GrowableMmap where
  storage : Storage
  isFile : Bool
  deriving Repr, DecidableEq

namespace GrowableMmap

/-- `GrowableMmap::get_new_mmap_size` (`src/growable_mmap.rs` lines
267-275). -/
def get_new_mmap_size (g : GrowableMmap) (add : Nat)
    (active_mmap_size : Option Nat) : Nat :=
  if g.isFile then
    let active_mmap := active_mmap_size.getD 2048
    max add (active_mmap * 2)
  else add

/-- `GrowableMmap::create_mmap` (`src/growable_mmap.rs` lines 277-295):
extend the file with `set_len` and map the fresh tail, or create an
anonymous map; either way the new window reads as zeros.  The file offset
only places the window in the file and is not part of the window's
contents. -/
def create_mmap (new_mmap_size : Nat) : List Nat :=
  List.replicate new_mmap_size 0

/-- `GrowableMmap::grow_and_apply` (`src/growable_mmap.rs` lines 144-229)
with every flush succeeding and the writer `f` modelled by the bytes `ws`
it writes at the head of the slice it receives (`ws.length = add` for the
appender's writer; the source's final re-match on `active_map`, whose
`None` arm returns `Err(DataFileDamaged)`, is unreachable because both
grow branches just set `active_map` to `Some`).  The result is `none`
exactly when the `assert_ne!(add, 0, "no grow in file size")` at line 148
fires. -/
def grow_and_apply (g : GrowableMmap) (add : Nat) (ws : List Nat) :
    Option GrowableMmap :=
  if add = 0 then none
  else
    let storage := g.storage
    let afterGrow : Storage × Nat :=
      match storage.active_map with
      | none =>
        let new_mmap_size := g.get_new_mmap_size add none
        let already_mapped := StorageHeader.HEADER_SIZE +
          storage.inactive_mmaps.index.memory_size
        let new_mmap := create_mmap new_mmap_size
        let single_mmap_index :=
          (SingleMmapIndex.new
            (already_mapped - StorageHeader.HEADER_SIZE)).append add
        let newActive : ActiveMmap :=
          { len := new_mmap_size, mmap := new_mmap, bounds := single_mmap_index }
        ({ storage with active_map := some newActive }, 0)
      | some active_mmap =>
        let current_mmap_end := active_mmap.bounds.current_mmap_size
        if current_mmap_end + add < active_mmap.len then
          let extended : ActiveMmap :=
            { active_mmap with
                bounds := active_mmap.bounds.append (current_mmap_end + add) }
          ({ storage with active_map := some extended }, current_mmap_end)
        else
          let new_mmap_size := g.get_new_mmap_size add (some active_mmap.len)
          let already_mapped := StorageHeader.HEADER_SIZE +
            active_mmap.bounds.last_global_index
          let new_mmap := create_mmap new_mmap_size
          let new_bounds :=
            (SingleMmapIndex.new
              (already_mapped - StorageHeader.HEADER_SIZE)).append add
          let newActive : ActiveMmap :=
            { len := new_mmap_size, mmap := new_mmap, bounds := new_bounds }
          let newInactive : InactiveMmaps :=
            { index := storage.inactive_mmaps.index.add_mmap active_mmap.bounds,
              maps := storage.inactive_mmaps.maps ++
                [active_mmap.mmap.take current_mmap_end] }
          ({ storage with
              active_map := some newActive,
              inactive_mmaps := newInactive }, 0)
    let start_write_from := afterGrow.2
    match afterGrow.1.active_map with
    | none => none
    | some active_mmap =>
      let written : ActiveMmap :=
        { active_mmap with
            mmap := writeAt active_mmap.mmap start_write_from ws }
      let current_size := afterGrow.1.header.load_storage_size
      some { g with storage :=
        { afterGrow.1 with
            header := afterGrow.1.header.store_storage_size
              (current_size + add),
            active_map := some written } }

end GrowableMmap

/-- Helper: with positive `add`, `grow_and_apply` completes — no branch
reaches the `none` outcomes (the assertion arm and the source's unreachable
defensive arm). -/
theorem grow_and_apply_isSome (g : GrowableMmap) (add : Nat) (ws : List Nat)
    (h : ¬ add = 0) : (g.grow_and_apply add ws).isSome := by
  unfold GrowableMmap.grow_and_apply
  rw [if_neg h]
  cases hact : g.storage.active_map with
  | none => simp [hact]
  | some a =>
    by_cases hc : a.bounds.current_mmap_size + add < a.len <;>
      simp [hact, hc]

/-- C10: `grow_and_apply(add, ..)` panics through its
`assert_ne!(add, 0, "no grow in file size")` exactly when `add = 0`; for
every call with positive `add` the assertion never fires and the call
completes, so `add > 0` is the operation's precondition. -/
theorem grow_and_apply_zero_assertion (g : GrowableMmap) (add : Nat)
    (ws : List Nat) : g.grow_and_apply add ws = none ↔ add = 0 := by
  constructor
  · intro h
    by_contra hne
    have hs := grow_and_apply_isSome g add ws hne
    rw [h] at hs
    simp [Option.isSome] at hs
  · intro h
    subst h
    simp [GrowableMmap.grow_and_apply]

/-- A file-backed `GrowableMmap` with one active segment of capacity 4
holding two written bytes. -/
def exampleGrowFile : GrowableMmap :=
  { storage :=
      { header := ⟨List.replicate 16 0⟩,
        inactive_mmaps := { index := ⟨[]⟩, maps := [] },
        active_map := some
          { len := 4, mmap := [1, 2, 0, 0], bounds := ⟨[0, 2], 0⟩ } },
    isFile := true }

/-- The same state backed by anonymous memory. -/
def exampleGrowMem : GrowableMmap :=
  { storage :=
      { header := ⟨List.replicate 16 0⟩,
        inactive_mmaps := { index := ⟨[]⟩, maps := [] },
        active_map := some
          { len := 4, mmap := [1, 2, 0, 0], bounds := ⟨[0, 2], 0⟩ } },
    isFile := false }

/-- Witness for the assertion-precondition theorem at concrete states. -/
theorem grow_and_apply_zero_assertion_witness :
    (exampleGrowFile.grow_and_apply 0 [] = none ↔ (0 : Nat) = 0) ∧
      (exampleGrowFile.grow_and_apply 2 [9, 9] = none ↔ (2 : Nat) = 0) :=
  ⟨grow_and_apply_zero_assertion exampleGrowFile 0 [],
    grow_and_apply_zero_assertion exampleGrowFile 2 [9, 9]⟩

/-- C5 counterexample: on `exampleGrowFile` the active segment's remaining
space is `4 - 2 = 2 = n`, so the claim demands an in-place write (capacity
still 4, frozen list still empty); the code instead freezes the two written
bytes and allocates a new active segment of capacity 8.  And on the
in-memory `exampleGrowMem` with `n = 3` the claim's sizing formula demands
`max(3, 2 × 4) = 8`, while the code sizes the new segment at exactly 3. -/
theorem grow_and_apply_counterexample :
    ((exampleGrowFile.grow_and_apply 2 [9, 9]).map (fun g2 =>
        (g2.storage.active_map.map ActiveMmap.len,
          g2.storage.inactive_mmaps.maps))) = some (some 8, [[1, 2]]) ∧
      (some 8 : Option Nat) ≠ some 4 ∧ ([[1, 2]] : List (List Nat)) ≠ [] ∧
      ((exampleGrowMem.grow_and_apply 3 [7, 7, 7]).map (fun g2 =>
        g2.storage.active_map.map ActiveMmap.len)) = some (some 3) ∧
      (some 3 : Option Nat) ≠ some (max 3 (4 * 2)) := by
  refine ⟨rfl, by decide, by decide, rfl, by decide⟩

/-- C5 amended and proved: on a state with an active segment, a call with
`n > 0` writes in place iff the remaining space is strictly greater than
`n` (`current_end + n < capacity`), extending the active segment's bounds;
otherwise it freezes the active segment's written prefix onto the frozen
list and creates a new active segment sized `max(n, 2 × previous capacity)`
when file-backed and exactly `n` when in-memory.  In both branches the
header's logical size advances by `n`. -/
theorem grow_and_apply_active_behavior (g : GrowableMmap) (a : ActiveMmap)
    (add : Nat) (ws : List Nat) (hact : g.storage.active_map = some a)
    (hadd : add ≠ 0) :
    g.grow_and_apply add ws = some
      (if a.bounds.current_mmap_size + add < a.len then
        { g with storage :=
          { g.storage with
              header := g.storage.header.store_storage_size
                (g.storage.header.load_storage_size + add),
              active_map := some
                { len := a.len,
                  mmap := writeAt a.mmap a.bounds.current_mmap_size ws,
                  bounds := a.bounds.append
                    (a.bounds.current_mmap_size + add) } } }
      else
        { g with storage :=
          { g.storage with
              header := g.storage.header.store_storage_size
                (g.storage.header.load_storage_size + add),
              inactive_mmaps :=
                { index := g.storage.inactive_mmaps.index.add_mmap a.bounds,
                  maps := g.storage.inactive_mmaps.maps ++
                    [a.mmap.take a.bounds.current_mmap_size] },
              active_map := some
                { len := if g.isFile then max add (a.len * 2) else add,
                  mmap := writeAt
                    (GrowableMmap.create_mmap
                      (if g.isFile then max add (a.len * 2) else add)) 0 ws,
                  bounds := ⟨[0, add], a.bounds.last_global_index⟩ } } }) := by
  unfold GrowableMmap.grow_and_apply
  rw [if_neg hadd]
  simp only [hact]
  by_cases hc : a.bounds.current_mmap_size + add < a.len
  · simp only [if_pos hc]
  · have harith : StorageHeader.HEADER_SIZE + a.bounds.last_global_index -
        StorageHeader.HEADER_SIZE = a.bounds.last_global_index :=
      Nat.add_sub_cancel_left _ _
    simp only [if_neg hc, harith, GrowableMmap.get_new_mmap_size,
      Option.getD_some, SingleMmapIndex.new, SingleMmapIndex.append,
      List.isEmpty_nil]
    by_cases hf : g.isFile
    · simp only [hf, if_true]
      rfl
    · simp only [hf, Bool.false_eq_true, if_false]
      rfl

/-- Witness for the amended growth-policy theorem: an in-place write of one
byte on `exampleGrowFile` (remaining space 2 > n = 1). -/
theorem grow_and_apply_active_behavior_witness :
    exampleGrowFile.grow_and_apply 1 [9] = some
      { storage :=
          { header := ⟨[1, 0, 0, 0, 0, 0, 0, 0, 0, 0, 0, 0, 0, 0, 0, 0]⟩,
            inactive_mmaps := { index := ⟨[]⟩, maps := [] },
            active_map := some
              { len := 4, mmap := [1, 2, 9, 0], bounds := ⟨[0, 2, 3], 0⟩ } },
        isFile := true } := by
  have h := grow_and_apply_active_behavior exampleGrowFile
    ⟨4, [1, 2, 0, 0], ⟨[0, 2], 0⟩⟩ 1 [9] rfl (by decide)
  rw [if_pos (by decide)] at h
  exact h.trans (by rfl)

end DataPile
